import Mathlib

/-!
Verification model of the `goup` command (a Go CLI that inspects installed Go
binaries and reports which ones can be updated from a module proxy).

The development shallowly embeds the program's pure logic:

* the semantic-version comparator used by the pipeline (validity, comparison,
  prerelease extraction, sorting) — the program calls the external library
  `golang.org/x/mod/semver`, whose contract is given in spec section 4.1;
* lexical path manipulation (`filepath.Split`, `filepath.Clean`,
  `filepath.Join`, `path.Base` from the Go standard library) used by
  `commandFor`;
* the per-file pipeline `doFile` (metadata extraction outcome, version-list
  retrieval outcome, prerelease filtering, sorting, command derivation) and
  its deferred rendering logic;
* directory traversal `doDir`, the argument loop `run`, flag validation, and
  the process exit behavior of `main`.

External effects (reading build metadata from a binary, the network call to
the proxy, writing to stdout) are modelled as explicit inputs: each candidate
file carries the outcome of its metadata extraction, of its registry listing,
and of the JSON-encoding write, as `Except` values.
-/

namespace Goup

/-! ## Character and character-list comparison helpers -/

/-- Comparison of two natural numbers as a Go-style three-way compare. -/
def natCmp (m n : Nat) : Int :=
  if m < n then -1 else if n < m then 1 else 0

/-- Lexicographic chaining of two comparison results: the second one counts
only when the first is a tie.  This is the control flow of the sequences of
`if c := ...; c != 0 { return c }` steps in the library's compare code. -/
def cmpChain (c1 c2 : Int) : Int :=
  if c1 = 0 then c2 else c1

/-- Byte-wise lexicographic comparison of two strings (as character lists).
Go compares strings by UTF-8 bytes; UTF-8 byte order coincides with code
point order, so comparing `Char.toNat` values is faithful. -/
def lexCmp : List Char → List Char → Int
  | [], [] => 0
  | [], _ :: _ => -1
  | _ :: _, [] => 1
  | a :: as, b :: bs =>
    if a.toNat < b.toNat then -1
    else if b.toNat < a.toNat then 1
    else lexCmp as bs

/-- Character class of decimal digits, as tested by the version parser. -/
def isDigitCh (c : Char) : Bool :=
  48 ≤ c.toNat && c.toNat ≤ 57

/-- Character class of semantic-version identifier characters:
ASCII letters, digits and hyphen (the library's `isIdentChar`). -/
def isIdentCh (c : Char) : Bool :=
  (65 ≤ c.toNat && c.toNat ≤ 90) || (97 ≤ c.toNat && c.toNat ≤ 122) ||
    isDigitCh c || c.toNat = 45

/-- Splitting a character list on a separator character; always returns a
non-empty list of (possibly empty) segments, like Go's `strings.Split`. -/
def splitOnCh (sep : Char) : List Char → List (List Char)
  | [] => [[]]
  | c :: cs =>
    if c = sep then [] :: splitOnCh sep cs
    else
      match splitOnCh sep cs with
      | [] => [[c]]
      | s :: rest => (c :: s) :: rest

/-! ## Semantic versions

Modelled from the spec: section 4.1 gives the VersionComparator contract
(`isValid`, `compare`, `sort`, `prereleaseTag`); the program obtains these
from the external library `golang.org/x/mod/semver`, which is not part of
this repository's sources.  The definitions below follow that library's
documented behavior: a version is `v` followed by `MAJOR[.MINOR[.PATCH]]`
with numeric identifiers free of leading zeros, an optional `-prerelease`
part of dot-separated non-empty identifiers (all-digit identifiers must
have no leading zero) and an optional `+build` part of dot-separated
non-empty identifiers. -/

/-- Parsed fields of a semantic version.  Numeric fields are kept as digit
strings; since valid numerals carry no leading zeros, the length-then-lexical
comparison used below coincides with numeric comparison. -/
structure Parsed where
  major : List Char
  minor : List Char
  patch : List Char
  pre : List Char
  build : List Char
deriving DecidableEq

/-- Parsing a numeric identifier from the head of the input: a non-empty
run of digits with no leading zero, returning it with the rest. -/
def parseNum (cs : List Char) : Option (List Char × List Char) :=
  match cs.takeWhile isDigitCh, cs.dropWhile isDigitCh with
  | [], _ => none
  | [d], rest => some ([d], rest)
  | d :: ds, rest => if d = '0' then none else some (d :: ds, rest)

/-- Test for an all-digit identifier with a leading zero, which is invalid
as a prerelease identifier. -/
def isBadNum : List Char → Bool
  | [] => false
  | c :: cs => (c :: cs).all isDigitCh && !(cs = []) && c = '0'

/-- Validity of one prerelease identifier: non-empty, made of identifier
characters, and (when all digits) free of leading zeros. -/
def validPreSeg (s : List Char) : Bool :=
  !(s = []) && s.all isIdentCh && !(isBadNum s)

/-- Parsing of an optional `-prerelease` part, returned with its leading
hyphen (or empty when absent), together with the unconsumed rest. -/
def parsePreOpt : List Char → Option (List Char × List Char)
  | '-' :: r =>
    let p := r.takeWhile (fun c => c != '+')
    let rest := r.dropWhile (fun c => c != '+')
    if (splitOnCh '.' p).all validPreSeg then some ('-' :: p, rest) else none
  | r => some ([], r)

/-- Parsing of an optional `+build` part, which must extend to the end of
the version: dot-separated non-empty identifier-character segments. -/
def parseBuildOpt : List Char → Option (List Char × List Char)
  | '+' :: r =>
    if (splitOnCh '.' r).all (fun s => !(s = []) && s.all isIdentCh)
    then some ('+' :: r, []) else none
  | r => some ([], r)

/-- Parsing of a full version string: a leading `v`, then major, optionally
`.minor`, optionally `.patch`, then optional prerelease and build parts.
Missing minor or patch components default to `0`, and in the short forms no
prerelease or build part is allowed, exactly as in the library. -/
def parseVersion (v : String) : Option Parsed :=
  match v.data with
  | 'v' :: r0 =>
    match parseNum r0 with
    | none => none
    | some (maj, r1) =>
      match r1 with
      | [] => some ⟨maj, ['0'], ['0'], [], []⟩
      | '.' :: r2 =>
        match parseNum r2 with
        | none => none
        | some (mino, r3) =>
          match r3 with
          | [] => some ⟨maj, mino, ['0'], [], []⟩
          | '.' :: r4 =>
            match parseNum r4 with
            | none => none
            | some (pat, r5) =>
              match parsePreOpt r5 with
              | none => none
              | some (pre, r6) =>
                match parseBuildOpt r6 with
                | none => none
                | some (bld, r7) =>
                  if r7 = [] then some ⟨maj, mino, pat, pre, bld⟩ else none
          | _ => none
      | _ => none
  | _ => none

/-- Validity test `semver.IsValid`: the version parses. -/
def isValid (v : String) : Bool :=
  (parseVersion v).isSome

/-- Prerelease extraction `semver.Prerelease`: the prerelease part with its
leading hyphen, or the empty string when the version is invalid or carries
no prerelease part. -/
def prereleaseOf (v : String) : String :=
  match parseVersion v with
  | some p => String.mk p.pre
  | none => ""

/-- Comparison of numeric identifiers (digit strings without leading
zeros): shorter numerals are smaller, equal-length numerals compare
lexically.  This is the library's `compareInt`. -/
def numCmp (x y : List Char) : Int :=
  cmpChain (natCmp x.length y.length) (lexCmp x y)

/-- Test for an all-digit identifier, the library's `isNum`. -/
def isNumSeg (s : List Char) : Bool :=
  s.all isDigitCh

/-- Comparison of two distinct-or-equal prerelease identifiers: numeric
identifiers sort before alphanumeric ones; two numeric identifiers compare
by magnitude (length, then lexically); otherwise ASCII order decides. -/
def segCmp (x y : List Char) : Int :=
  if x = y then 0
  else
    match isNumSeg x, isNumSeg y with
    | true, false => -1
    | false, true => 1
    | true, true => numCmp x y
    | false, false => lexCmp x y

/-- Comparison of two dot-separated prerelease identifier sequences: the
first differing identifier decides; a strict prefix sorts first. -/
def segsCmp : List (List Char) → List (List Char) → Int
  | [], [] => 0
  | [], _ :: _ => -1
  | _ :: _, [] => 1
  | x :: xs, y :: ys => if x = y then segsCmp xs ys else segCmp x y

/-- Comparison of two prerelease parts (each stored with its leading hyphen
or empty): a version without prerelease sorts after one with a prerelease;
otherwise the identifier sequences decide. -/
def preCmp (x y : List Char) : Int :=
  if x = y then 0
  else if x = [] then 1
  else if y = [] then -1
  else segsCmp (splitOnCh '.' (x.drop 1)) (splitOnCh '.' (y.drop 1))

/-- Comparison of two parsed versions: major, then minor, then patch, then
prerelease; the build part is ignored. -/
def parsedCmp (p q : Parsed) : Int :=
  cmpChain (numCmp p.major q.major)
    (cmpChain (numCmp p.minor q.minor)
      (cmpChain (numCmp p.patch q.patch) (preCmp p.pre q.pre)))

/-- Full comparison `semver.Compare`: an invalid version sorts below every
valid one, and all invalid versions compare equal. -/
def semverCompare (v w : String) : Int :=
  match parseVersion v, parseVersion w with
  | none, none => 0
  | none, some _ => -1
  | some _, none => 1
  | some p, some q => parsedCmp p q

/-- Ascending-order relation used to sort version lists, as required by the
spec's sort contract (stable ascending sort by compare). -/
def semverLE (v w : String) : Prop :=
  semverCompare v w ≤ 0

instance : DecidableRel semverLE :=
  fun v w => inferInstanceAs (Decidable (semverCompare v w ≤ 0))

/-- Sorting of a version list, the model of `semver.Sort`. -/
def sortVersions (l : List String) : List String :=
  List.insertionSort semverLE l

/-! ## Order theory of the comparator

The comparison functions above form total preorders: each is antisymmetric
(`c a b = -(c b a)`) and transitive on the non-positive side.  These facts
make the sort well behaved (the last element of the sorted list is a maximum
under the comparator). -/

/-- Property of a Go-style three-way comparison: swapping the arguments
negates the result, and the at-most relation is transitive. -/
structure IsCmp {α : Type} (c : α → α → Int) : Prop where
  antisym : ∀ a b, c a b = -(c b a)
  transLE : ∀ a b x, c a b ≤ 0 → c b x ≤ 0 → c a x ≤ 0

/-- Any comparison with the swap property is reflexively zero. -/
theorem IsCmp.cmpSelf {α : Type} {c : α → α → Int} (h : IsCmp c) (a : α) :
    c a a = 0 := by
  have := h.antisym a a
  omega

/-- Composing a comparison with a projection keeps the comparison laws. -/
theorem IsCmp.comap {α β : Type} {c : β → β → Int} (h : IsCmp c) (f : α → β) :
    IsCmp (fun a b => c (f a) (f b)) :=
  ⟨fun a b => h.antisym (f a) (f b), fun a b x => h.transLE (f a) (f b) (f x)⟩

/-- Lexicographic chaining of two lawful comparisons is lawful. -/
theorem IsCmp.chain {α : Type} {c1 c2 : α → α → Int} (h1 : IsCmp c1)
    (h2 : IsCmp c2) : IsCmp (fun a b => cmpChain (c1 a b) (c2 a b)) := by
  constructor
  · intro a b
    have ha := h1.antisym a b
    have hb := h2.antisym a b
    by_cases h : c1 a b = 0
    · have h' : c1 b a = 0 := by omega
      simp only [cmpChain, if_pos h, if_pos h']
      omega
    · have h' : ¬c1 b a = 0 := by omega
      simp only [cmpChain, if_neg h, if_neg h']
      omega
  · intro a b x hab hbx
    simp only [cmpChain] at hab hbx ⊢
    have hab1 : c1 a b ≤ 0 := by
      by_cases e : c1 a b = 0
      · omega
      · simp only [if_neg e] at hab
        omega
    have hbx1 : c1 b x ≤ 0 := by
      by_cases e : c1 b x = 0
      · omega
      · simp only [if_neg e] at hbx
        omega
    have hax : c1 a x ≤ 0 := h1.transLE a b x hab1 hbx1
    by_cases e3 : c1 a x = 0
    · simp only [if_pos e3]
      have hxa : c1 x a ≤ 0 := by
        have := h1.antisym a x
        omega
      have hxb : c1 x b ≤ 0 := h1.transLE x a b hxa hab1
      have hba : c1 b a ≤ 0 := h1.transLE b x a hbx1 hxa
      have e1 : c1 a b = 0 := by
        have := h1.antisym a b
        omega
      have e2 : c1 b x = 0 := by
        have := h1.antisym b x
        omega
      simp only [if_pos e1] at hab
      simp only [if_pos e2] at hbx
      exact h2.transLE a b x hab hbx
    · simp only [if_neg e3]
      exact hax

/-- Zero chains are exactly the chains of two zeros. -/
theorem cmpChain_eq_zero {c1 c2 : Int} : cmpChain c1 c2 = 0 ↔ c1 = 0 ∧ c2 = 0 := by
  unfold cmpChain
  by_cases h : c1 = 0 <;> simp [h]

/-- The natural-number comparison is lawful. -/
theorem natCmp_isCmp : IsCmp natCmp := by
  constructor
  · intro a b
    unfold natCmp
    split_ifs <;> omega
  · intro a b x hab hbx
    unfold natCmp at hab hbx ⊢
    split_ifs at hab hbx ⊢ <;> omega

/-- Characters with the same code point are equal. -/
theorem char_toNat_inj {a b : Char} (h : a.toNat = b.toNat) : a = b := by
  apply Char.eq_of_val_eq
  apply UInt32.eq_of_toBitVec_eq
  apply BitVec.eq_of_toNat_eq
  exact h

/-- Swapping the arguments of the lexicographic comparison negates it. -/
theorem lexCmp_antisym : ∀ x y : List Char, lexCmp x y = -(lexCmp y x)
  | [], [] => by simp [lexCmp]
  | [], _ :: _ => by simp [lexCmp]
  | _ :: _, [] => by simp [lexCmp]
  | a :: as, b :: bs => by
    have ih := lexCmp_antisym as bs
    simp only [lexCmp]
    by_cases h1 : a.toNat < b.toNat
    · have h2 : ¬b.toNat < a.toNat := by omega
      simp [h1, h2]
    · by_cases h2 : b.toNat < a.toNat
      · simp [h1, h2]
      · simp [h1, h2, ih]

/-- The lexicographic comparison is zero exactly on equal lists. -/
theorem lexCmp_eq_zero : ∀ x y : List Char, lexCmp x y = 0 ↔ x = y
  | [], [] => by simp [lexCmp]
  | [], _ :: _ => by simp [lexCmp]
  | _ :: _, [] => by simp [lexCmp]
  | a :: as, b :: bs => by
    have ih := lexCmp_eq_zero as bs
    simp only [lexCmp]
    by_cases h1 : a.toNat < b.toNat
    · have hne : a ≠ b := fun h => by rw [h] at h1; omega
      simp [h1, hne]
    · by_cases h2 : b.toNat < a.toNat
      · have hne : a ≠ b := fun h => by rw [h] at h2; omega
        simp [h1, h2, hne]
      · have heq : a = b := char_toNat_inj (by omega)
        simp [h1, h2, ih, heq]

/-- Empty lists compare at or below everything lexicographically. -/
theorem lexCmp_nil_le : ∀ y : List Char, lexCmp [] y ≤ 0
  | [] => by simp [lexCmp]
  | _ :: _ => by simp [lexCmp]

/-- Transitivity of the at-most side of the lexicographic comparison. -/
theorem lexCmp_transLE : ∀ x y z : List Char,
    lexCmp x y ≤ 0 → lexCmp y z ≤ 0 → lexCmp x z ≤ 0
  | [], _, z => fun _ _ => lexCmp_nil_le z
  | _ :: _, [], _ => by
    intro hab
    simp [lexCmp] at hab
  | _ :: _, _ :: _, [] => by
    intro _ hbc
    simp [lexCmp] at hbc
  | a :: as, b :: bs, c :: cs => by
    intro hab hbc
    have ih := lexCmp_transLE as bs cs
    simp only [lexCmp] at hab hbc ⊢
    have cab : a.toNat < b.toNat ∨ (a.toNat = b.toNat ∧ lexCmp as bs ≤ 0) := by
      by_cases g1 : a.toNat < b.toNat
      · exact Or.inl g1
      · by_cases g2 : b.toNat < a.toNat
        · rw [if_neg g1, if_pos g2] at hab
          omega
        · rw [if_neg g1, if_neg g2] at hab
          exact Or.inr ⟨by omega, hab⟩
    have cbc : b.toNat < c.toNat ∨ (b.toNat = c.toNat ∧ lexCmp bs cs ≤ 0) := by
      by_cases g3 : b.toNat < c.toNat
      · exact Or.inl g3
      · by_cases g4 : c.toNat < b.toNat
        · rw [if_neg g3, if_pos g4] at hbc
          omega
        · rw [if_neg g3, if_neg g4] at hbc
          exact Or.inr ⟨by omega, hbc⟩
    rcases cab with h | ⟨he1, hr1⟩ <;> rcases cbc with h' | ⟨he2, hr2⟩
    · rw [if_pos (by omega : a.toNat < c.toNat)]
      omega
    · rw [if_pos (by omega : a.toNat < c.toNat)]
      omega
    · rw [if_pos (by omega : a.toNat < c.toNat)]
      omega
    · rw [if_neg (by omega : ¬a.toNat < c.toNat), if_neg (by omega : ¬c.toNat < a.toNat)]
      exact ih hr1 hr2

/-- The lexicographic comparison is lawful. -/
theorem lexCmp_isCmp : IsCmp lexCmp :=
  ⟨lexCmp_antisym, lexCmp_transLE⟩

/-- The numeric-identifier comparison is lawful. -/
theorem numCmp_isCmp : IsCmp numCmp :=
  IsCmp.chain (natCmp_isCmp.comap (fun l : List Char => l.length)) lexCmp_isCmp

/-- The numeric-identifier comparison is zero exactly on equal lists. -/
theorem numCmp_eq_zero {x y : List Char} : numCmp x y = 0 ↔ x = y := by
  unfold numCmp
  rw [cmpChain_eq_zero]
  constructor
  · rintro ⟨-, h2⟩
    exact (lexCmp_eq_zero x y).mp h2
  · rintro rfl
    exact ⟨natCmp_isCmp.cmpSelf _, (lexCmp_eq_zero x x).mpr rfl⟩

/-- The single-identifier comparison is zero exactly on equal identifiers. -/
theorem segCmp_eq_zero {x y : List Char} : segCmp x y = 0 ↔ x = y := by
  unfold segCmp
  by_cases h : x = y
  · simp [h]
  · simp only [if_neg h]
    cases hx : isNumSeg x <;> cases hy : isNumSeg y <;> simp [h]
    · rw [lexCmp_eq_zero]
      exact h
    · rw [numCmp_eq_zero]
      exact h

/-- Swapping the arguments of the single-identifier comparison negates it. -/
theorem segCmp_antisym (x y : List Char) : segCmp x y = -(segCmp y x) := by
  unfold segCmp
  by_cases h : x = y
  · simp [h]
  · have h' : ¬y = x := fun hh => h hh.symm
    simp only [if_neg h, if_neg h']
    cases hx : isNumSeg x <;> cases hy : isNumSeg y <;> simp
    · exact lexCmp_antisym x y
    · exact numCmp_isCmp.antisym x y

/-- Transitivity of the at-most side of the single-identifier comparison. -/
theorem segCmp_transLE (a b c : List Char) (hab : segCmp a b ≤ 0)
    (hbc : segCmp b c ≤ 0) : segCmp a c ≤ 0 := by
  by_cases hac : a = c
  · simp [segCmp, hac]
  · by_cases hab' : a = b
    · rw [hab']
      exact hbc
    · by_cases hbc' : b = c
      · rw [← hbc']
        exact hab
      · unfold segCmp at hab hbc ⊢
        rw [if_neg hab'] at hab
        rw [if_neg hbc'] at hbc
        rw [if_neg hac]
        cases na : isNumSeg a <;> cases nb : isNumSeg b <;> cases nc : isNumSeg c <;>
          rw [na, nb] at hab <;> rw [nb, nc] at hbc <;> simp at hab hbc ⊢
        · exact lexCmp_transLE a b c hab hbc
        · exact numCmp_isCmp.transLE a b c hab hbc

/-- Swapping the arguments of the identifier-sequence comparison negates
it. -/
theorem segsCmp_antisym : ∀ x y : List (List Char), segsCmp x y = -(segsCmp y x)
  | [], [] => by simp [segsCmp]
  | [], _ :: _ => by simp [segsCmp]
  | _ :: _, [] => by simp [segsCmp]
  | x :: xs, y :: ys => by
    by_cases h : x = y
    · subst h
      simp only [segsCmp, if_pos rfl]
      exact segsCmp_antisym xs ys
    · have h' : ¬y = x := fun hh => h hh.symm
      simp only [segsCmp, if_neg h, if_neg h']
      exact segCmp_antisym x y

/-- Transitivity of the at-most side of the identifier-sequence
comparison. -/
theorem segsCmp_transLE : ∀ x y z : List (List Char),
    segsCmp x y ≤ 0 → segsCmp y z ≤ 0 → segsCmp x z ≤ 0
  | [], _, [] => by simp [segsCmp]
  | [], _, _ :: _ => by simp [segsCmp]
  | _ :: _, [], _ => by
    intro hab
    simp [segsCmp] at hab
  | _ :: _, _ :: _, [] => by
    intro _ hbc
    simp [segsCmp] at hbc
  | x :: xs, y :: ys, z :: zs => by
    intro hab hbc
    have ih := segsCmp_transLE xs ys zs
    simp only [segsCmp] at hab hbc ⊢
    by_cases hxy : x = y
    · subst hxy
      rw [if_pos rfl] at hab
      by_cases hyz : x = z
      · subst hyz
        rw [if_pos rfl] at hbc
        rw [if_pos rfl]
        exact ih hab hbc
      · rw [if_neg hyz] at hbc
        rw [if_neg hyz]
        exact hbc
    · rw [if_neg hxy] at hab
      by_cases hyz : y = z
      · subst hyz
        rw [if_neg hxy]
        exact hab
      · rw [if_neg hyz] at hbc
        by_cases hxz : x = z
        · subst hxz
          exfalso
          have hanti := segCmp_antisym x y
          have hzero : segCmp x y = 0 := by omega
          exact hxy (segCmp_eq_zero.mp hzero)
        · rw [if_neg hxz]
          exact segCmp_transLE x y z hab hbc

/-- Swapping the arguments of the prerelease comparison negates it. -/
theorem preCmp_antisym (x y : List Char) : preCmp x y = -(preCmp y x) := by
  unfold preCmp
  by_cases h : x = y
  · simp [h]
  · have h' : ¬y = x := fun hh => h hh.symm
    rw [if_neg h, if_neg h']
    by_cases hx : x = []
    · have hy : ¬y = [] := fun hh => h (by rw [hx, hh])
      rw [if_pos hx, if_neg hy, if_pos hx]
      norm_num
    · by_cases hy : y = []
      · rw [if_neg hx, if_pos hy, if_pos hy]
      · rw [if_neg hx, if_neg hy, if_neg hy, if_neg hx]
        exact segsCmp_antisym _ _

/-- Transitivity of the at-most side of the prerelease comparison. -/
theorem preCmp_transLE (a b c : List Char) (hab : preCmp a b ≤ 0)
    (hbc : preCmp b c ≤ 0) : preCmp a c ≤ 0 := by
  by_cases hac : a = c
  · simp [preCmp, hac]
  · by_cases hab' : a = b
    · rw [hab']
      exact hbc
    · by_cases hbc' : b = c
      · rw [← hbc']
        exact hab
      · unfold preCmp at hab hbc ⊢
        rw [if_neg hab'] at hab
        rw [if_neg hbc'] at hbc
        rw [if_neg hac]
        by_cases ha : a = []
        · rw [if_pos ha] at hab
          omega
        · rw [if_neg ha] at hab
          rw [if_neg ha]
          by_cases hb : b = []
          · rw [if_pos hb] at hbc
            omega
          · rw [if_neg hb] at hab
            rw [if_neg hb] at hbc
            by_cases hc : c = []
            · rw [if_pos hc]
              omega
            · rw [if_neg hc] at hbc
              rw [if_neg hc]
              exact segsCmp_transLE _ _ _ hab hbc

/-- The prerelease comparison is lawful. -/
theorem preCmp_isCmp : IsCmp preCmp :=
  ⟨preCmp_antisym, preCmp_transLE⟩

/-- The parsed-version comparison is lawful. -/
theorem parsedCmp_isCmp : IsCmp parsedCmp :=
  IsCmp.chain (numCmp_isCmp.comap Parsed.major)
    (IsCmp.chain (numCmp_isCmp.comap Parsed.minor)
      (IsCmp.chain (numCmp_isCmp.comap Parsed.patch)
        (preCmp_isCmp.comap Parsed.pre)))

/-- The full version comparison is lawful. -/
theorem semverCompare_isCmp : IsCmp semverCompare := by
  constructor
  · intro a b
    unfold semverCompare
    cases parseVersion a <;> cases parseVersion b <;> simp
    exact parsedCmp_isCmp.antisym _ _
  · intro a b x hab hbx
    unfold semverCompare at hab hbx ⊢
    cases ha : parseVersion a <;> cases hb : parseVersion b <;>
      cases hx : parseVersion x <;> rw [ha, hb] at hab <;> rw [hb, hx] at hbx <;>
      simp at hab hbx ⊢
    exact parsedCmp_isCmp.transLE _ _ _ hab hbx

/-- The sorting relation is reflexive. -/
theorem semverLE_of_self (v : String) : semverLE v v :=
  le_of_eq (semverCompare_isCmp.cmpSelf v)

instance : IsTotal String semverLE where
  total a b := by
    unfold semverLE
    have := semverCompare_isCmp.antisym a b
    omega

instance : IsTrans String semverLE where
  trans a b c := semverCompare_isCmp.transLE a b c

/-- In a pairwise-ordered list, every member relates to the last element
(taking a default for the empty list). -/
theorem mem_rel_getLastD {α : Type} {r : α → α → Prop} (hrefl : ∀ a, r a a) :
    ∀ (l : List α), l.Pairwise r → ∀ x, x ∈ l → ∀ d, r x (l.getLastD d)
  | [], _, x, hx, _ => absurd hx (List.not_mem_nil x)
  | a :: t, hp, x, hx, d => by
    rw [List.getLastD_cons]
    rcases List.mem_cons.mp hx with rfl | hxt
    · have hmem := List.getLastD_mem_cons t x
      rcases List.mem_cons.mp hmem with he | hm
      · rw [he]
        exact hrefl x
      · exact (List.pairwise_cons.mp hp).1 _ hm
    · exact mem_rel_getLastD hrefl t (List.pairwise_cons.mp hp).2 x hxt a

/-- The last element of the sorted version list is a member of the original
list and a maximum of it under the semantic-version comparison. -/
theorem sortVersions_getLastD_max {l : List String} (hne : l ≠ []) :
    (sortVersions l).getLastD "" ∈ l ∧
      ∀ v ∈ l, semverCompare v ((sortVersions l).getLastD "") ≤ 0 := by
  unfold sortVersions
  have hperm := List.perm_insertionSort semverLE l
  have hsorted := List.sorted_insertionSort semverLE l
  constructor
  · apply hperm.mem_iff.mp
    cases h : List.insertionSort semverLE l with
    | nil =>
      exfalso
      rw [h] at hperm
      exact hne hperm.symm.eq_nil
    | cons a t =>
      rw [List.getLastD_cons]
      have hmem := List.getLastD_mem_cons t a
      rcases List.mem_cons.mp hmem with he | hm
      · rw [he]
        exact List.mem_cons_self a t
      · exact List.mem_cons_of_mem a hm
  · intro v hv
    have hv' : v ∈ List.insertionSort semverLE l := hperm.mem_iff.mpr hv
    exact mem_rel_getLastD semverLE_of_self _ hsorted v hv' ""

/-! ## Lexical path manipulation

These model the Go standard library's pure path functions used by
`commandFor`: `filepath.Split`, `filepath.Clean`, `filepath.Join` (on a
Unix separator) and `path.Base`. -/

/-- Splitting a path at its final separator: the directory part keeps the
trailing separator, the file part is what follows (Go `filepath.Split`). -/
def filepathSplit (p : String) : String × String :=
  let r := p.data.reverse
  (String.mk (r.dropWhile (fun c => c != '/')).reverse,
    String.mk (r.takeWhile (fun c => c != '/')).reverse)

/-- Joining path components with separators. -/
def joinSlash : List (List Char) → List Char
  | [] => []
  | [s] => s
  | s :: t => s ++ '/' :: joinSlash t

/-- Stack-based processing of `..` components during path cleaning: a `..`
pops a previous real component, stays when it follows another `..` in a
relative path, and disappears at the root. -/
def cleanStack (rooted : Bool) : List (List Char) → List (List Char) → List (List Char)
  | acc, [] => acc.reverse
  | acc, c :: cs =>
    if c = ['.', '.'] then
      match acc with
      | [] => if rooted then cleanStack rooted [] cs else cleanStack rooted [c] cs
      | top :: rest =>
        if top = ['.', '.'] then cleanStack rooted (c :: acc) cs
        else cleanStack rooted rest cs
    else cleanStack rooted (c :: acc) cs

/-- Lexical path cleaning (Go `filepath.Clean` on a Unix path): drop empty
and `.` components, resolve `..` against preceding components, keep the
rooted marker, and return `.` for an empty relative result. -/
def clean (p : String) : String :=
  if p = "" then "."
  else
    let rooted := p.data.headD ' ' = '/'
    let comps := (splitOnCh '/' p.data).filter
      (fun c => !(c = []) && !(c = ['.']))
    let out := cleanStack rooted [] comps
    if out = [] then (if rooted then "/" else ".")
    else String.mk ((if rooted then ['/'] else []) ++ joinSlash out)

/-- Joining two path elements (Go `filepath.Join` for two arguments): empty
elements are skipped and the result is cleaned. -/
def filepathJoin (a b : String) : String :=
  if a = "" && b = "" then ""
  else if a = "" then clean b
  else if b = "" then clean a
  else clean (a ++ "/" ++ b)

/-- Final element of a slash-separated path (Go `path.Base`): empty input
gives `.`, trailing separators are removed first, and an all-separator path
gives `/`. -/
def pathBase (p : String) : String :=
  if p = "" then "."
  else
    let trimmed := (p.data.reverse.dropWhile (fun c => c == '/')).reverse
    if trimmed = [] then "/"
    else String.mk (trimmed.reverse.takeWhile (fun c => c != '/')).reverse

/-! ## The pipeline

The data model and per-file pipeline of `main.go`, with external effects
supplied as explicit outcomes. -/

/-- Environment consulted by `commandFor` and the `run` loop: the values of
the GOBIN and GOPATH variables, the user's home directory, and the
temporary directory. -/
structure GlobalEnv where
  gobinEnv : String := ""
  gopathEnv : String := ""
  home : String := ""
  tmpdir : String := "/tmp"
deriving DecidableEq

/-- Default binary-install directory, as resolved inside `commandFor`:
GOBIN if set, else GOPATH/bin if GOPATH is set, else HOME/go/bin. -/
def resolvedGobin (g : GlobalEnv) : String :=
  if g.gobinEnv = "" then
    (if g.gopathEnv = "" then
      filepathJoin (filepathJoin g.home "go") "bin"
    else filepathJoin g.gopathEnv "bin")
  else g.gobinEnv

/-- Derivation of the suggested upgrade command (`commandFor` in
`main.go`): a plain `go install` when the binary sits at the default
install directory under its package's base name, a `GOBIN`-overridden
install when only the name matches, and an install-into-temporary plus
`mv` when the binary was renamed. -/
def commandFor (genv : GlobalEnv) (pkg ver dest : String) : String :=
  let sp := filepathSplit dest
  let destdir := clean sp.1
  let destfile := sp.2
  let pkgbase := pathBase pkg
  let gobin := resolvedGobin genv
  if destdir = gobin ∧ destfile = pkgbase then
    "go install " ++ pkg ++ "@" ++ ver
  else if destfile = pkgbase then
    "GOBIN=" ++ destdir ++ " go install " ++ pkg ++ "@" ++ ver
  else
    "GOBIN=" ++ genv.tmpdir ++ " go install " ++ pkg ++ "@" ++ ver ++
      " && mv " ++ filepathJoin genv.tmpdir pkgbase ++ " " ++ dest

/-- Configuration built from the command-line flags of `main.go`. -/
structure Config where
  all : Bool := false
  emitCmd : Bool := false
  emitJSON : Bool := false
  pre : Bool := true
  showErrs : Bool := true
deriving DecidableEq

/-- Build metadata extracted from a binary (`debug/buildinfo`): the main
module's path and version, and the main package's path. -/
structure BuildMeta where
  mainPath : String
  mainVersion : String
  pkgPath : String
deriving DecidableEq

deriving instance DecidableEq for Except

/-- External outcomes for processing one candidate file: the result of the
metadata extraction, of the registry version listing, and of writing the
JSON encoding to stdout (when attempted). -/
structure FileEnv where
  extract : Except String BuildMeta
  list : Except String (List String)
  encode : Except String Unit := Except.ok ()
deriving DecidableEq

/-- The per-file result record (`output` in `main.go`); zero values mirror
Go's zero-valued struct fields. -/
structure Output where
  file : String := ""
  installed : String := ""
  available : String := ""
  mainModule : String := ""
  mainPackage : String := ""
  command : String := ""
  error : String := ""
deriving DecidableEq

/-- The result record built by the body of `doFile`: extraction failure and
listing failure populate `error` (with the wrapped message) and return; a
non-empty (possibly prerelease-filtered) version list is sorted and its
last element becomes the available version, with a derived command. -/
def doFileOutput (pre : Bool) (genv : GlobalEnv) (file : String)
    (fe : FileEnv) : Output :=
  match fe.extract with
  | Except.error msg =>
    { file := file, error := "reading " ++ file ++ ": " ++ msg }
  | Except.ok info =>
    let base : Output :=
      { file := file, installed := info.mainVersion,
        mainModule := info.mainPath, mainPackage := info.pkgPath }
    match fe.list with
    | Except.error msg =>
      { base with
        error := "listing versions for " ++ info.mainPath ++ ": " ++ msg }
    | Except.ok versions =>
      let versions :=
        if pre then versions
        else versions.filter (fun v => prereleaseOf v = "")
      if versions.length > 0 then
        let available := (sortVersions versions).getLastD ""
        { base with
          available := available,
          command := commandFor genv info.pkgPath available file }
      else base

/-- One rendering decision of the deferred block in `doFile`. -/
inductive Render where
  | none
  | errLine (s : String)
  | jsonObj (o : Output)
  | cmdLine (s : String)
  | plainLine (s : String)
deriving DecidableEq

/-- The human-readable line printed in plain mode, omitting empty fields. -/
def plainLineFor (o : Output) : String :=
  o.file ++ ":" ++
    (if o.mainPackage != "" then " package=" ++ o.mainPackage else "") ++
    (if o.installed != "" then " installed=" ++ o.installed else "") ++
    (if o.available != "" then " available=" ++ o.available else "")

/-- The deferred rendering logic of `doFile`: errors are dropped when
`showErrs` is off; outside JSON mode errors go to the error stream; unless
`all` is set without `cmd`, results failing the upgrade filter (invalid
installed or available version, or installed at or above available) are
suppressed; the survivors render as JSON, a shell command, or a plain
line. -/
def render (c : Config) (o : Output) : Render :=
  if !c.showErrs && o.error != "" then Render.none
  else if !c.emitJSON && o.error != "" then
    Render.errLine (o.file ++ ": " ++ o.error)
  else if (!c.all || c.emitCmd) &&
      (!(isValid o.installed) || !(isValid o.available) ||
        decide (0 ≤ semverCompare o.installed o.available)) then
    Render.none
  else if c.emitJSON then Render.jsonObj o
  else if c.emitCmd then Render.cmdLine o.command
  else Render.plainLine (plainLineFor o)

/-- Whether a rendering decision writes a line (or object) to stdout. -/
def emitsToStdout : Render → Bool
  | Render.jsonObj _ => true
  | Render.cmdLine _ => true
  | Render.plainLine _ => true
  | _ => false

/-- Full processing of one file (`doFile`): the built result, the
rendering decision, and the error returned to the caller — which is the
JSON-encoding outcome when a JSON object was emitted and success
otherwise. -/
def doFile (c : Config) (genv : GlobalEnv) (file : String) (fe : FileEnv) :
    Output × Render × Except String Unit :=
  (doFileOutput c.pre genv file fe,
   render c (doFileOutput c.pre genv file fe),
   match render c (doFileOutput c.pre genv file fe) with
   | Render.jsonObj _ => fe.encode
   | _ => Except.ok ())

/-- Directory processing (`doDir`): each entry is processed in order with
its name joined to the directory; a file whose processing returns an error
stops the loop with the wrapped error. -/
def doDir (c : Config) (genv : GlobalEnv) (dir : String) :
    List (String × FileEnv) → List (Output × Render) × Except String Unit
  | [] => ([], Except.ok ())
  | (name, fe) :: rest =>
    match (doFile c genv (filepathJoin dir name) fe).2.2 with
    | Except.error msg =>
      ([((doFile c genv (filepathJoin dir name) fe).1,
         (doFile c genv (filepathJoin dir name) fe).2.1)],
        Except.error ("processing " ++ dir ++ "/" ++ name ++ ": " ++ msg))
    | Except.ok _ =>
      (((doFile c genv (filepathJoin dir name) fe).1,
        (doFile c genv (filepathJoin dir name) fe).2.1)
          :: (doDir c genv dir rest).1,
        (doDir c genv dir rest).2)

/-- One command-line argument of the run, with its externally determined
behavior: a plain file, a directory with its entries, a path that fails to
stat, or a directory that fails to list. -/
inductive Arg where
  | file (name : String) (fe : FileEnv)
  | dir (name : String) (entries : List (String × FileEnv))
  | statErr (name : String) (msg : String)
  | dirReadErr (name : String) (msg : String)
deriving DecidableEq

/-- The argument loop of `run`: stat failures and directory-read failures
abort the run with a wrapped error; a per-file error returned by `doFile`
aborts the run; otherwise processing continues through every argument. -/
def processArgs (c : Config) (genv : GlobalEnv) :
    List Arg → List (Output × Render) × Except String Unit
  | [] => ([], Except.ok ())
  | Arg.statErr name msg :: _ =>
    ([], Except.error ("statting " ++ name ++ ": " ++ msg))
  | Arg.dirReadErr name msg :: _ =>
    ([], Except.error
      ("processing " ++ name ++ ": " ++ "reading " ++ name ++ ": " ++ msg))
  | Arg.dir name entries :: rest =>
    (match (doDir c genv name entries).2 with
     | Except.error msg =>
       ((doDir c genv name entries).1,
         Except.error ("processing " ++ name ++ ": " ++ msg))
     | Except.ok _ =>
       ((doDir c genv name entries).1 ++ (processArgs c genv rest).1,
         (processArgs c genv rest).2))
  | Arg.file name fe :: rest =>
    (match (doFile c genv name fe).2.2 with
     | Except.error msg =>
       ([((doFile c genv name fe).1, (doFile c genv name fe).2.1)],
         Except.error ("processing " ++ name ++ ": " ++ msg))
     | Except.ok _ =>
       (((doFile c genv name fe).1, (doFile c genv name fe).2.1)
           :: (processArgs c genv rest).1,
         (processArgs c genv rest).2))

/-- The whole run (`run` in `main.go`): the mutually exclusive flag pairs
are rejected before any argument is processed; then the argument loop
runs. -/
def runModel (c : Config) (genv : GlobalEnv) (args : List Arg) :
    List (Output × Render) × Except String Unit :=
  if c.all && c.emitCmd then
    ([], Except.error "cannot specify both -all and -cmd")
  else if c.emitCmd && c.emitJSON then
    ([], Except.error "cannot specify both -cmd and -json")
  else processArgs c genv args

/-- Exit code of `main`: zero when `run` succeeds, one otherwise. -/
def mainExitCode (c : Config) (genv : GlobalEnv) (args : List Arg) : Nat :=
  match (runModel c genv args).2 with
  | Except.ok _ => 0
  | Except.error _ => 1

/-- Message written by `main` to the error stream when `run` fails. -/
def mainErrOut (c : Config) (genv : GlobalEnv) (args : List Arg) :
    Option String :=
  match (runModel c genv args).2 with
  | Except.ok _ => Option.none
  | Except.error msg => Option.some ("Error: " ++ msg)

/-- Public default registry URL. -/
def defaultProxy : String := "https://proxy.golang.org"

/-- Registry base URL used by the current `run` (`main.go` lines 31-34)
when the proxy flag is not given: the whole GOPROXY value when non-empty,
else the public default. -/
def proxyDefault (goproxyEnv : String) : String :=
  if goproxyEnv = "" then defaultProxy else goproxyEnv

/-- Registry base URL of the alternate variant (`src/unnamed/part_000`
lines 25-32): after the same defaulting, the value is split on commas and
the first entry is kept when there are several. -/
def proxyDefaultAlt (goproxyEnv : String) : String :=
  let g := if goproxyEnv = "" then defaultProxy else goproxyEnv
  let parts := splitOnCh ',' g.data
  if parts.length > 1 then String.mk (parts.headD g.data) else g

/-! ## Helper lemmas about the pipeline -/

/-- Branch equation of `doFileOutput` for a failed metadata extraction. -/
theorem doFileOutput_extractErr (pre : Bool) (genv : GlobalEnv) (file : String)
    (fe : FileEnv) (msg : String) (h : fe.extract = Except.error msg) :
    doFileOutput pre genv file fe =
      { file := file, error := "reading " ++ file ++ ": " ++ msg } := by
  unfold doFileOutput
  rw [h]

/-- Branch equation of `doFileOutput` for a failed registry listing. -/
theorem doFileOutput_listErr (pre : Bool) (genv : GlobalEnv) (file : String)
    (fe : FileEnv) (info : BuildMeta) (msg : String)
    (hex : fe.extract = Except.ok info) (hls : fe.list = Except.error msg) :
    doFileOutput pre genv file fe =
      { file := file, installed := info.mainVersion,
        mainModule := info.mainPath, mainPackage := info.pkgPath,
        error := "listing versions for " ++ info.mainPath ++ ": " ++ msg } := by
  unfold doFileOutput
  rw [hex, hls]

/-- Branch equation of `doFileOutput` when extraction and listing both
succeed. -/
theorem doFileOutput_listOk (pre : Bool) (genv : GlobalEnv) (file : String)
    (fe : FileEnv) (info : BuildMeta) (versions : List String)
    (hex : fe.extract = Except.ok info) (hls : fe.list = Except.ok versions) :
    doFileOutput pre genv file fe =
      (if (if pre then versions
            else versions.filter (fun v => prereleaseOf v = "")).length > 0 then
        { file := file, installed := info.mainVersion,
          mainModule := info.mainPath, mainPackage := info.pkgPath,
          available := (sortVersions (if pre then versions
            else versions.filter (fun v => prereleaseOf v = ""))).getLastD "",
          command := commandFor genv info.pkgPath
            ((sortVersions (if pre then versions
              else versions.filter (fun v => prereleaseOf v = ""))).getLastD "")
            file }
      else
        { file := file, installed := info.mainVersion,
          mainModule := info.mainPath, mainPackage := info.pkgPath }) := by
  unfold doFileOutput
  rw [hex, hls]

/-- The available version computed on a successful run with a non-empty
filtered list is the last element of the sorted filtered list. -/
theorem doFileOutput_available_of_ok (pre : Bool) (genv : GlobalEnv)
    (file : String) (fe : FileEnv) (info : BuildMeta) (versions : List String)
    (hex : fe.extract = Except.ok info) (hls : fe.list = Except.ok versions)
    (hne : (if pre then versions
      else versions.filter (fun v => prereleaseOf v = "")) ≠ []) :
    (doFileOutput pre genv file fe).available =
      (sortVersions (if pre then versions
        else versions.filter (fun v => prereleaseOf v = ""))).getLastD "" := by
  rw [doFileOutput_listOk pre genv file fe info versions hex hls,
    apply_ite Output.available, if_pos (List.length_pos.mpr hne)]

/-- On a doubly successful run the error field stays empty. -/
theorem doFileOutput_error_of_ok (pre : Bool) (genv : GlobalEnv)
    (file : String) (fe : FileEnv) (info : BuildMeta) (versions : List String)
    (hex : fe.extract = Except.ok info) (hls : fe.list = Except.ok versions) :
    (doFileOutput pre genv file fe).error = "" := by
  rw [doFileOutput_listOk pre genv file fe info versions hex hls,
    apply_ite Output.error]
  simp

/-- Appending to a non-empty string keeps it non-empty. -/
theorem string_append_ne_empty_of_left (s t : String) (h : s ≠ "") :
    s ++ t ≠ "" := by
  intro he
  apply h
  have h1 : (s ++ t).length = 0 := by rw [he]; rfl
  rw [String.length_append] at h1
  have h2 : s.length = 0 := by omega
  exact String.ext (List.length_eq_zero.mp h2)

/-- The derived command is never the empty string. -/
theorem commandFor_ne_empty (genv : GlobalEnv) (pkg ver dest : String) :
    commandFor genv pkg ver dest ≠ "" := by
  unfold commandFor
  dsimp only
  split_ifs
  all_goals repeat apply string_append_ne_empty_of_left
  all_goals decide

/-- A result with a non-empty available version carries a non-empty
command. -/
theorem doFileOutput_command_ne_empty (pre : Bool) (genv : GlobalEnv)
    (file : String) (fe : FileEnv)
    (h : (doFileOutput pre genv file fe).available ≠ "") :
    (doFileOutput pre genv file fe).command ≠ "" := by
  cases hex : fe.extract with
  | error msg =>
    rw [doFileOutput_extractErr pre genv file fe msg hex] at h
    simp at h
  | ok info =>
    cases hls : fe.list with
    | error msg =>
      rw [doFileOutput_listErr pre genv file fe info msg hex hls] at h
      simp at h
    | ok versions =>
      rw [doFileOutput_listOk pre genv file fe info versions hex hls] at h ⊢
      rw [apply_ite Output.available] at h
      rw [apply_ite Output.command]
      by_cases hl : (if pre then versions
          else versions.filter (fun v => prereleaseOf v = "")).length > 0
      · rw [if_pos hl]
        exact commandFor_ne_empty genv _ _ _
      · rw [if_neg hl] at h
        simp at h

/-- Only JSON mode can produce a JSON rendering decision. -/
theorem render_jsonObj_emitJSON {c : Config} {o o2 : Output}
    (h : render c o = Render.jsonObj o2) : c.emitJSON = true := by
  unfold render at h
  split_ifs at h with h1 h2 h3 h4 h5
  all_goals simp_all

/-- A per-file error returned by `doFile` can only be a JSON-encoding
failure, so it only happens in JSON mode. -/
theorem doFile_err_emitJSON {c : Config} {genv : GlobalEnv} {file : String}
    {fe : FileEnv} {msg : String}
    (h : (doFile c genv file fe).2.2 = Except.error msg) : c.emitJSON = true := by
  unfold doFile at h
  simp only at h
  cases hr : render c (doFileOutput c.pre genv file fe) with
  | jsonObj o2 => exact render_jsonObj_emitJSON hr
  | none => rw [hr] at h; simp at h
  | errLine s => rw [hr] at h; simp at h
  | cmdLine s => rw [hr] at h; simp at h
  | plainLine s => rw [hr] at h; simp at h

/-- When the encoding outcome of a file is a success, `doFile` returns
success. -/
theorem doFile_ok_of_encodeOk {c : Config} {genv : GlobalEnv} {file : String}
    {fe : FileEnv} (h : fe.encode = Except.ok ()) :
    (doFile c genv file fe).2.2 = Except.ok () := by
  unfold doFile
  simp only
  cases hr : render c (doFileOutput c.pre genv file fe) <;> simp [h]

/-- Directory processing with per-entry encoding successes never fails and
produces one result per entry. -/
theorem doDir_encodeOk (c : Config) (genv : GlobalEnv) (dir : String) :
    ∀ entries : List (String × FileEnv),
      (∀ e ∈ entries, e.2.encode = Except.ok ()) →
      (doDir c genv dir entries).2 = Except.ok () ∧
        (doDir c genv dir entries).1.length = entries.length
  | [], _ => by simp [doDir]
  | (name, fe) :: rest, h => by
    have hfe : fe.encode = Except.ok () := h (name, fe) (List.mem_cons_self _ _)
    have ih := doDir_encodeOk c genv dir rest
      (fun e he => h e (List.mem_cons_of_mem _ he))
    have h3 : (doFile c genv (filepathJoin dir name) fe).2.2 = Except.ok () :=
      doFile_ok_of_encodeOk hfe
    unfold doDir
    rw [h3]
    simp only [List.length_cons]
    exact ⟨ih.1, by rw [ih.2]⟩

/-! ## Claim theorems -/

/-- C1: for every file processed without error whose (prerelease-filtered,
when prerelease inclusion is off) version list is non-empty, the result's
available version is a member and a maximum of the filtered list under
semantic-version ordering; in particular, for the list
`[v1.0.0, v1.1.0-beta]` the available version resolves to `v1.0.0` with
prerelease disabled and to `v1.1.0-beta` with prerelease enabled. -/
theorem claim_c1_available_is_max (pre : Bool) (genv : GlobalEnv)
    (file : String) (info : BuildMeta) (versions : List String) (fe : FileEnv)
    (hex : fe.extract = Except.ok info) (hls : fe.list = Except.ok versions)
    (hne : (if pre then versions
      else versions.filter (fun v => prereleaseOf v = "")) ≠ []) :
    ((doFileOutput pre genv file fe).available
        ∈ (if pre then versions
            else versions.filter (fun v => prereleaseOf v = ""))
      ∧ ∀ v ∈ (if pre then versions
            else versions.filter (fun v => prereleaseOf v = "")),
          semverCompare v (doFileOutput pre genv file fe).available ≤ 0)
    ∧ (doFileOutput false genv file
        { extract := Except.ok info,
          list := Except.ok ["v1.0.0", "v1.1.0-beta"] }).available = "v1.0.0"
    ∧ (doFileOutput true genv file
        { extract := Except.ok info,
          list := Except.ok ["v1.0.0", "v1.1.0-beta"] }).available
        = "v1.1.0-beta" := by
  refine ⟨?_, ?_, ?_⟩
  · rw [doFileOutput_available_of_ok pre genv file fe info versions hex hls hne]
    exact sortVersions_getLastD_max hne
  · rw [doFileOutput_available_of_ok false genv file
      { extract := Except.ok info, list := Except.ok ["v1.0.0", "v1.1.0-beta"] }
      info ["v1.0.0", "v1.1.0-beta"] rfl rfl (by decide)]
    decide
  · rw [doFileOutput_available_of_ok true genv file
      { extract := Except.ok info, list := Except.ok ["v1.0.0", "v1.1.0-beta"] }
      info ["v1.0.0", "v1.1.0-beta"] rfl rfl (by decide)]
    decide

/-- Witness for C1 at a concrete input. -/
theorem claim_c1_witness :
    (doFileOutput true { } "f"
      { extract := Except.ok ⟨"example.com/m", "v1.0.0", "example.com/m/cmd/x"⟩,
        list := Except.ok ["v1.0.0", "v1.1.0-beta"] }).available
      ∈ ["v1.0.0", "v1.1.0-beta"] := by
  have h := claim_c1_available_is_max true { } "f"
    ⟨"example.com/m", "v1.0.0", "example.com/m/cmd/x"⟩
    ["v1.0.0", "v1.1.0-beta"]
    { extract := Except.ok ⟨"example.com/m", "v1.0.0", "example.com/m/cmd/x"⟩,
      list := Except.ok ["v1.0.0", "v1.1.0-beta"] }
    rfl rfl (by decide)
  simpa using h.1.1

/-- C3 (counterexample): a result for a file whose metadata extraction
succeeded but whose registry listing failed has a populated error field
together with a non-empty installed version, refuting the claim that the
installed version always stays empty in the error state. -/
theorem claim_c3_counterexample :
    (doFileOutput true { } "f"
      { extract := Except.ok ⟨"example.com/m", "v1.0.0", "example.com/m/cmd/x"⟩,
        list := Except.error "network timeout" }).error ≠ ""
    ∧ (doFileOutput true { } "f"
      { extract := Except.ok ⟨"example.com/m", "v1.0.0", "example.com/m/cmd/x"⟩,
        list := Except.error "network timeout" }).installed = "v1.0.0" := by
  decide

/-- C3 (amended): the error field is populated only when metadata
extraction or the registry listing failed; in that state the available
version and the command stay empty, and the installed version stays empty
in the extraction-failure case (after a listing failure it keeps the
already-extracted installed version). -/
theorem claim_c3_error_state (pre : Bool) (genv : GlobalEnv) (file : String)
    (fe : FileEnv) (h : (doFileOutput pre genv file fe).error ≠ "") :
    ((∃ m, fe.extract = Except.error m) ∨ (∃ m, fe.list = Except.error m))
    ∧ (doFileOutput pre genv file fe).available = ""
    ∧ (doFileOutput pre genv file fe).command = ""
    ∧ (∀ m, fe.extract = Except.error m →
        (doFileOutput pre genv file fe).installed = "") := by
  cases hex : fe.extract with
  | error msg =>
    rw [doFileOutput_extractErr pre genv file fe msg hex]
    exact ⟨Or.inl ⟨msg, rfl⟩, rfl, rfl, fun m _ => rfl⟩
  | ok info =>
    cases hls : fe.list with
    | error msg =>
      rw [doFileOutput_listErr pre genv file fe info msg hex hls]
      refine ⟨Or.inr ⟨msg, rfl⟩, rfl, rfl, ?_⟩
      intro m hm
      simp at hm
    | ok versions =>
      exact absurd (doFileOutput_error_of_ok pre genv file fe info versions hex hls) h

/-- Witness for C3 at a concrete input. -/
theorem claim_c3_witness :
    (doFileOutput true { } "f"
      { extract := Except.error "bad magic", list := Except.ok [] }).available = ""
    ∧ (doFileOutput true { } "f"
      { extract := Except.error "bad magic", list := Except.ok [] }).installed = "" := by
  have h := claim_c3_error_state true { } "f"
    { extract := Except.error "bad magic", list := Except.ok [] } (by decide)
  exact ⟨h.2.1, h.2.2.2 "bad magic" rfl⟩

/-- C6: the derived upgrade command follows the three-case priority: plain
install when the destination directory is the default install directory and
the filename is the package base; install with an overridden install
directory when only the filename matches; install into the temporary
directory followed by a move to the exact destination otherwise. -/
theorem claim_c6_command_cases (genv : GlobalEnv) (pkg ver dest : String) :
    (clean (filepathSplit dest).1 = resolvedGobin genv →
      (filepathSplit dest).2 = pathBase pkg →
      commandFor genv pkg ver dest = "go install " ++ pkg ++ "@" ++ ver)
    ∧ (clean (filepathSplit dest).1 ≠ resolvedGobin genv →
      (filepathSplit dest).2 = pathBase pkg →
      commandFor genv pkg ver dest =
        "GOBIN=" ++ clean (filepathSplit dest).1 ++ " go install "
          ++ pkg ++ "@" ++ ver)
    ∧ ((filepathSplit dest).2 ≠ pathBase pkg →
      commandFor genv pkg ver dest =
        "GOBIN=" ++ genv.tmpdir ++ " go install " ++ pkg ++ "@" ++ ver
          ++ " && mv " ++ filepathJoin genv.tmpdir (pathBase pkg)
          ++ " " ++ dest) := by
  unfold commandFor
  dsimp only
  refine ⟨fun h1 h2 => ?_, fun h1 h2 => ?_, fun h2 => ?_⟩
  · rw [if_pos ⟨h1, h2⟩]
  · rw [if_neg (fun hc => h1 hc.1), if_pos h2]
  · rw [if_neg (fun hc => h2 hc.2), if_neg h2]

/-- Witness for C6: the spec's concrete scenario with the default install
directory resolved from the home directory. -/
theorem claim_c6_witness :
    commandFor { home := "/home/u" } "example.com/tool/cmd/tool" "v2.0.0"
      "/home/u/go/bin/tool" = "go install example.com/tool/cmd/tool@v2.0.0" := by
  have h := claim_c6_command_cases { home := "/home/u" }
    "example.com/tool/cmd/tool" "v2.0.0" "/home/u/go/bin/tool"
  rw [h.1 (by decide) (by decide)]
  decide

/-- C7: an invocation combining the all and cmd flags, or the cmd and json
flags, fails before any file is processed: no results are produced, the
run returns the flag error, the process exits non-zero, and the message
goes to the error stream. -/
theorem claim_c7_flag_validation (c : Config) (genv : GlobalEnv)
    (args : List Arg)
    (h : (c.all = true ∧ c.emitCmd = true)
      ∨ (c.emitCmd = true ∧ c.emitJSON = true)) :
    (runModel c genv args).1 = []
    ∧ mainExitCode c genv args = 1
    ∧ ∃ m, (runModel c genv args).2 = Except.error m
        ∧ mainErrOut c genv args = Option.some ("Error: " ++ m) := by
  unfold mainExitCode mainErrOut runModel
  by_cases h1 : (c.all && c.emitCmd) = true
  · rw [if_pos h1]
    exact ⟨rfl, rfl, "cannot specify both -all and -cmd", rfl, rfl⟩
  · have h2 : (c.emitCmd && c.emitJSON) = true := by
      rcases h with ⟨ha, hc⟩ | ⟨hc, hj⟩
      · exact absurd (by rw [ha, hc]; rfl) h1
      · rw [hc, hj]
        rfl
    rw [if_neg h1, if_pos h2]
    exact ⟨rfl, rfl, "cannot specify both -cmd and -json", rfl, rfl⟩

/-- Witness for C7 at a concrete flag combination. -/
theorem claim_c7_witness :
    mainExitCode { all := true, emitCmd := true } { } [] = 1 :=
  (claim_c7_flag_validation { all := true, emitCmd := true } { } []
    (Or.inl ⟨rfl, rfl⟩)).2.1

/-- C8 (counterexample): with GOPROXY holding two comma-separated entries,
the flag-variant default proxy is the whole value, not the first entry. -/
theorem claim_c8_counterexample :
    proxyDefault "https://a,https://b" ≠ "https://a" := by
  decide

/-- C8 (amended): in the flag variant the registry base URL defaults to
the whole GOPROXY value when non-empty and to the public default URL when
empty; the first-comma-entry behavior belongs to the alternate variant. -/
theorem claim_c8_proxy_default (env : String) :
    (env ≠ "" → proxyDefault env = env)
    ∧ proxyDefault "" = defaultProxy
    ∧ proxyDefaultAlt "https://a,https://b" = "https://a"
    ∧ proxyDefaultAlt "" = defaultProxy := by
  refine ⟨fun h => ?_, by decide, by decide, by decide⟩
  unfold proxyDefault
  rw [if_neg h]

/-- Witness for C8 at a concrete environment value. -/
theorem claim_c8_witness :
    proxyDefault "https://a,https://b" = "https://a,https://b" :=
  (claim_c8_proxy_default "https://a,https://b").1 (by decide)

/-- C2: for every result with no error, in plain and JSON output modes
without the show-all flag the result is printed exactly when its installed
and available versions are valid semantic versions with installed strictly
below available; with show-all it is always printed.  In particular
installed v1.0.0 with available v1.0.0 is suppressed by default and shown
under show-all, while installed v1.0.0 with available v1.2.0 is printed by
default. -/
theorem claim_c2_suppression (c : Config) (o : Output) (he : o.error = "")
    (hc : c.emitCmd = false) :
    ((c.all = false → (emitsToStdout (render c o) = true ↔
        (isValid o.installed = true ∧ isValid o.available = true
          ∧ semverCompare o.installed o.available < 0)))
      ∧ (c.all = true → emitsToStdout (render c o) = true))
    ∧ render { } { file := "f", installed := "v1.0.0", available := "v1.0.0" }
        = Render.none
    ∧ emitsToStdout (render { all := true }
        { file := "f", installed := "v1.0.0", available := "v1.0.0" }) = true
    ∧ emitsToStdout (render { }
        { file := "f", installed := "v1.0.0", available := "v1.2.0" }) = true := by
  have hd : (o.error != "") = false := by rw [he]; rfl
  refine ⟨⟨?_, ?_⟩, by decide, by decide, by decide⟩
  · intro hall
    by_cases h3 : semverCompare o.installed o.available < 0
    · have h4 : decide (0 ≤ semverCompare o.installed o.available) = false :=
        decide_eq_false (by omega)
      cases hej : c.emitJSON <;>
        by_cases h1 : isValid o.installed <;>
        by_cases h2 : isValid o.available <;>
        simp [render, emitsToStdout, hd, hall, hc, hej, h1, h2, h3, h4]
    · have h4 : decide (0 ≤ semverCompare o.installed o.available) = true :=
        decide_eq_true (by omega)
      cases hej : c.emitJSON <;>
        by_cases h1 : isValid o.installed <;>
        by_cases h2 : isValid o.available <;>
        simp [render, emitsToStdout, hd, hall, hc, hej, h1, h2, h3, h4]
  · intro hall
    cases hej : c.emitJSON <;>
      simp [render, emitsToStdout, hd, hall, hc, hej]

/-- Witness for C2 at a concrete configuration and result. -/
theorem claim_c2_witness :
    emitsToStdout (render { emitJSON := true }
      { file := "f", installed := "v1.0.0", available := "v1.2.0" }) = true := by
  have h := claim_c2_suppression { emitJSON := true }
    { file := "f", installed := "v1.0.0", available := "v1.2.0" } rfl rfl
  exact (h.1.1 rfl).mpr (by decide)

/-- C4 (counterexample): in JSON mode with default flags (show-errors on,
show-all off), a result with a populated error field is suppressed by the
upgrade filter even though show-errors is on, refuting the claim that in
every output mode an error result is withheld only when show-errors is
off. -/
theorem claim_c4_counterexample :
    render { emitJSON := true }
        { file := "f", installed := "v1.0.0", error := "x" } = Render.none
    ∧ ({ emitJSON := true } : Config).showErrs = true := by
  decide

/-- C4 (amended): an error result is dropped entirely when show-errors is
off; in the non-JSON modes it is otherwise always reported on the error
stream, never suppressed by the upgrade filter; in JSON mode it is subject
to the upgrade filter, so without show-all it is suppressed (its available
version being empty), while with show-all (and show-errors, without cmd)
it is emitted as a JSON object. -/
theorem claim_c4_error_render (c : Config) (o : Output) (he : o.error ≠ "") :
    (c.showErrs = false → render c o = Render.none)
    ∧ (c.showErrs = true → c.emitJSON = false →
        render c o = Render.errLine (o.file ++ ": " ++ o.error))
    ∧ (c.showErrs = true → c.emitJSON = true → c.all = false →
        o.available = "" → render c o = Render.none)
    ∧ (c.showErrs = true → c.emitJSON = true → c.all = true →
        c.emitCmd = false → render c o = Render.jsonObj o) := by
  have hd : (o.error != "") = true := by
    rw [bne_iff_ne]
    exact he
  refine ⟨fun hse => ?_, fun hse hej => ?_, fun hse hej hall hav => ?_,
    fun hse hej hall hcm => ?_⟩
  · simp [render, hd, hse]
  · simp [render, hd, hse, hej]
  · have h5 : isValid o.available = false := by
      rw [hav]
      decide
    simp [render, hd, hse, hej, hall, h5]
  · simp [render, hd, hse, hej, hall, hcm]

/-- Witness for C4 at a concrete configuration and result. -/
theorem claim_c4_witness :
    render { emitJSON := true }
      { file := "f", installed := "v1.0.0", error := "boom" } = Render.none := by
  have h := claim_c4_error_render { emitJSON := true }
    { file := "f", installed := "v1.0.0", error := "boom" } (by decide)
  exact h.2.2.1 rfl rfl rfl rfl

/-- C9: in shell-command output mode the upgrade filter applies
unconditionally: a line goes to stdout exactly for a result with no error
whose installed and available versions are valid semantic versions with
installed strictly below available, and any such printed line is the
result's command field, which is non-empty. -/
theorem claim_c9_cmd_mode (c : Config) (genv : GlobalEnv) (file : String)
    (fe : FileEnv) (hc : c.emitCmd = true) (hj : c.emitJSON = false) :
    (emitsToStdout (doFile c genv file fe).2.1 = true ↔
      ((doFile c genv file fe).1.error = ""
        ∧ isValid (doFile c genv file fe).1.installed = true
        ∧ isValid (doFile c genv file fe).1.available = true
        ∧ semverCompare (doFile c genv file fe).1.installed
            (doFile c genv file fe).1.available < 0))
    ∧ (emitsToStdout (doFile c genv file fe).2.1 = true →
        (doFile c genv file fe).2.1
          = Render.cmdLine (doFile c genv file fe).1.command
        ∧ (doFile c genv file fe).1.command ≠ "") := by
  have hfst : (doFile c genv file fe).1 = doFileOutput c.pre genv file fe := rfl
  have hsnd : (doFile c genv file fe).2.1
      = render c (doFileOutput c.pre genv file fe) := rfl
  rw [hfst, hsnd]
  have hiff : emitsToStdout (render c (doFileOutput c.pre genv file fe)) = true ↔
      ((doFileOutput c.pre genv file fe).error = ""
        ∧ isValid (doFileOutput c.pre genv file fe).installed = true
        ∧ isValid (doFileOutput c.pre genv file fe).available = true
        ∧ semverCompare (doFileOutput c.pre genv file fe).installed
            (doFileOutput c.pre genv file fe).available < 0) := by
    by_cases herr : (doFileOutput c.pre genv file fe).error = ""
    · have hd : ((doFileOutput c.pre genv file fe).error != "") = false := by
        rw [herr]
        rfl
      by_cases h3 : semverCompare (doFileOutput c.pre genv file fe).installed
          (doFileOutput c.pre genv file fe).available < 0
      · have h4 : decide (0 ≤ semverCompare
            (doFileOutput c.pre genv file fe).installed
            (doFileOutput c.pre genv file fe).available) = false :=
          decide_eq_false (by omega)
        by_cases h1 : isValid (doFileOutput c.pre genv file fe).installed <;>
          by_cases h2 : isValid (doFileOutput c.pre genv file fe).available <;>
          simp [render, emitsToStdout, hd, hc, hj, herr, h1, h2, h3, h4]
      · have h4 : decide (0 ≤ semverCompare
            (doFileOutput c.pre genv file fe).installed
            (doFileOutput c.pre genv file fe).available) = true :=
          decide_eq_true (by omega)
        by_cases h1 : isValid (doFileOutput c.pre genv file fe).installed <;>
          by_cases h2 : isValid (doFileOutput c.pre genv file fe).available <;>
          simp [render, emitsToStdout, hd, hc, hj, herr, h1, h2, h3, h4]
    · have hd : ((doFileOutput c.pre genv file fe).error != "") = true := by
        rw [bne_iff_ne]
        exact herr
      cases hse : c.showErrs <;>
        simp [render, emitsToStdout, hd, hse, hj, herr]
  refine ⟨hiff, fun hemit => ?_⟩
  obtain ⟨herr, h1, h2, h3⟩ := hiff.mp hemit
  have hd : ((doFileOutput c.pre genv file fe).error != "") = false := by
    rw [herr]
    rfl
  have h4 : decide (0 ≤ semverCompare
      (doFileOutput c.pre genv file fe).installed
      (doFileOutput c.pre genv file fe).available) = false :=
    decide_eq_false (by omega)
  refine ⟨by simp [render, hd, hc, hj, h1, h2, h4], ?_⟩
  have hav : (doFileOutput c.pre genv file fe).available ≠ "" := by
    intro hempty
    rw [hempty] at h2
    exact absurd h2 (by decide)
  exact doFileOutput_command_ne_empty c.pre genv file fe hav

/-- Witness for C9 at a concrete configuration and file. -/
theorem claim_c9_witness :
    emitsToStdout (doFile { emitCmd := true } { home := "/home/u" }
      "/home/u/go/bin/x"
      { extract := Except.ok ⟨"example.com/m", "v1.0.0", "example.com/m/cmd/x"⟩,
        list := Except.ok ["v1.1.0"] }).2.1 = true := by
  have h := claim_c9_cmd_mode { emitCmd := true } { home := "/home/u" }
    "/home/u/go/bin/x"
    { extract := Except.ok ⟨"example.com/m", "v1.0.0", "example.com/m/cmd/x"⟩,
      list := Except.ok ["v1.1.0"] } rfl rfl
  exact h.1.mpr (by decide)

/-- C5: metadata-extraction and registry-listing failures are recorded in
the per-file result and never fail the run (directory processing with
working output encoding always succeeds with one result per entry); in
particular a directory of three entries, one of which is not a recognized
binary, yields exactly three results — two without error and one with the
error populated — and the process exits zero. -/
theorem claim_c5_perfile_recoverable (c : Config) (genv : GlobalEnv)
    (dir : String) (entries : List (String × FileEnv))
    (henc : ∀ e ∈ entries, e.2.encode = Except.ok ()) :
    ((doDir c genv dir entries).2 = Except.ok ()
      ∧ (doDir c genv dir entries).1.length = entries.length)
    ∧ (runModel { } { } [Arg.dir "d"
        [("a", { extract := Except.ok ⟨"example.com/m", "v1.0.0", "example.com/m/cmd/a"⟩, list := Except.ok ["v1.2.0"] }),
         ("b", { extract := Except.error "not a recognized binary", list := Except.ok [] }),
         ("c", { extract := Except.ok ⟨"example.com/m", "v1.0.0", "example.com/m/cmd/c"⟩, list := Except.ok ["v1.0.0"] })]]).2 = Except.ok ()
    ∧ (runModel { } { } [Arg.dir "d"
        [("a", { extract := Except.ok ⟨"example.com/m", "v1.0.0", "example.com/m/cmd/a"⟩, list := Except.ok ["v1.2.0"] }),
         ("b", { extract := Except.error "not a recognized binary", list := Except.ok [] }),
         ("c", { extract := Except.ok ⟨"example.com/m", "v1.0.0", "example.com/m/cmd/c"⟩, list := Except.ok ["v1.0.0"] })]]).1.length = 3
    ∧ ((runModel { } { } [Arg.dir "d"
        [("a", { extract := Except.ok ⟨"example.com/m", "v1.0.0", "example.com/m/cmd/a"⟩, list := Except.ok ["v1.2.0"] }),
         ("b", { extract := Except.error "not a recognized binary", list := Except.ok [] }),
         ("c", { extract := Except.ok ⟨"example.com/m", "v1.0.0", "example.com/m/cmd/c"⟩, list := Except.ok ["v1.0.0"] })]]).1.filter
        (fun p => p.1.error != "")).length = 1
    ∧ ((runModel { } { } [Arg.dir "d"
        [("a", { extract := Except.ok ⟨"example.com/m", "v1.0.0", "example.com/m/cmd/a"⟩, list := Except.ok ["v1.2.0"] }),
         ("b", { extract := Except.error "not a recognized binary", list := Except.ok [] }),
         ("c", { extract := Except.ok ⟨"example.com/m", "v1.0.0", "example.com/m/cmd/c"⟩, list := Except.ok ["v1.0.0"] })]]).1.filter
        (fun p => p.1.error == "")).length = 2
    ∧ mainExitCode { } { } [Arg.dir "d"
        [("a", { extract := Except.ok ⟨"example.com/m", "v1.0.0", "example.com/m/cmd/a"⟩, list := Except.ok ["v1.2.0"] }),
         ("b", { extract := Except.error "not a recognized binary", list := Except.ok [] }),
         ("c", { extract := Except.ok ⟨"example.com/m", "v1.0.0", "example.com/m/cmd/c"⟩, list := Except.ok ["v1.0.0"] })]] = 0 :=
  ⟨doDir_encodeOk c genv dir entries henc,
    by decide, by decide, by decide, by decide, by decide⟩

/-- Witness for C5 at a concrete directory content. -/
theorem claim_c5_witness :
    (doDir { } { } "d"
      [("b", { extract := Except.error "oops", list := Except.ok [] })]).2
      = Except.ok () := by
  have h := claim_c5_perfile_recoverable { } { } "d"
    [("b", { extract := Except.error "oops", list := Except.ok [] })]
    (fun e he => by
      rcases List.mem_singleton.mp he with rfl
      rfl)
  exact h.1.1

/-- C10: in JSON mode a failure to encode a result to the output stream is
returned from the per-file step and becomes a whole-run failure: the run
stops with that file's wrapped error (no later argument is processed) and
the process exits non-zero; such a failure can only arise in JSON mode. -/
theorem claim_c10_encode_error (c : Config) (genv : GlobalEnv)
    (name : String) (fe : FileEnv) (rest : List Arg) (msg : String)
    (h : (doFile c genv name fe).2.2 = Except.error msg)
    (h1 : (c.all && c.emitCmd) = false)
    (h2 : (c.emitCmd && c.emitJSON) = false) :
    c.emitJSON = true
    ∧ runModel c genv (Arg.file name fe :: rest)
        = ([((doFile c genv name fe).1, (doFile c genv name fe).2.1)],
            Except.error ("processing " ++ name ++ ": " ++ msg))
    ∧ mainExitCode c genv (Arg.file name fe :: rest) = 1 := by
  have hrun : runModel c genv (Arg.file name fe :: rest)
      = ([((doFile c genv name fe).1, (doFile c genv name fe).2.1)],
          Except.error ("processing " ++ name ++ ": " ++ msg)) := by
    unfold runModel
    rw [if_neg (by simp [h1]), if_neg (by simp [h2])]
    unfold processArgs
    rw [h]
  exact ⟨doFile_err_emitJSON h, hrun, by unfold mainExitCode; rw [hrun]⟩

/-- Witness for C10 at a concrete configuration and file. -/
theorem claim_c10_witness :
    mainExitCode { emitJSON := true } { } [Arg.file "f"
      { extract := Except.ok ⟨"example.com/m", "v1.0.0", "example.com/m/cmd/x"⟩,
        list := Except.ok ["v1.1.0"],
        encode := Except.error "broken pipe" }] = 1 := by
  have h := claim_c10_encode_error { emitJSON := true } { } "f"
    { extract := Except.ok ⟨"example.com/m", "v1.0.0", "example.com/m/cmd/x"⟩,
      list := Except.ok ["v1.1.0"],
      encode := Except.error "broken pipe" } [] "broken pipe"
    (by decide) rfl rfl
  exact h.2.2

end Goup
